import Mathlib

/-!
Verification of the `sain` collections core (`Slice`, `Vec`, `Bytes`/`BytesMut`)
against its natural-language specification.  Python sequences are embedded as
`List`, Python `int` as `Int`, catchable exceptions as an error type threaded
through `Except`, and Python object identity (needed for the aliasing and
ownership-move claims) as addresses into an explicit heap of list objects.
-/

namespace Sain

/-- Catchable Python exception kinds raised by the `sain` collection methods. -/
inductive PyErr where
  | indexError
  | valueError
  | attributeError
  | runtimeError
  deriving DecidableEq, Repr

/-- Effective bound of a Python slice endpoint `i` over a sequence of length
`n`: a negative endpoint counts from the end, and the result is clamped into
`[0, n]`, exactly as CPython computes slice bounds for step `1`. -/
def pyIdx (n : Nat) (i : Int) : Nat :=
  if i < 0 then (i + n).toNat else min i.toNat n

/-- Python slicing `l[:b]` (step 1, start omitted). -/
def pySliceTo (l : List α) (b : Int) : List α :=
  l.take (pyIdx l.length b)

/-- Python slicing `l[a:]` (step 1, stop omitted). -/
def pySliceFrom (l : List α) (a : Int) : List α :=
  l.drop (pyIdx l.length a)

theorem pyIdx_le (n : Nat) (i : Int) : pyIdx n i ≤ n := by
  unfold pyIdx
  split <;> omega

theorem pyIdx_of_mem (n : Nat) (i : Int) (h0 : 0 ≤ i) (h1 : i ≤ (n : Int)) :
    pyIdx n i = i.toNat := by
  unfold pyIdx
  split <;> omega

theorem pyIdx_of_gt (n : Nat) (i : Int) (h : (n : Int) < i) : pyIdx n i = n := by
  unfold pyIdx
  split <;> omega

/-- `Slice.split_at(mid)` from `slice.py`: raises `IndexError` when
`mid > len(self)`, otherwise returns `(self[0:mid], self[mid:])`. -/
def split_at (v : List α) (mid : Int) : Except PyErr (List α × List α) :=
  if (v.length : Int) < mid then .error .indexError
  else .ok (pySliceTo v mid, pySliceFrom v mid)

/-- `Slice.split_at_checked(mid)` from `slice.py`: unconditionally returns
`(self[0:mid], self[mid:])`; Python step-1 slicing never raises, so the
function is total. -/
def split_at_checked (v : List α) (mid : Int) : List α × List α :=
  (pySliceTo v mid, pySliceFrom v mid)

/-- C4: for every `mid` with `0 <= mid <= len v`, `split_at` returns the two
views `[0,mid)` and `[mid,len)` whose elementwise concatenation is `v`; for
every `mid > len v` it raises `IndexError`. -/
theorem split_at_spec (v : List α) (mid : Int) :
    (0 ≤ mid → mid ≤ (v.length : Int) →
      split_at v mid = .ok (v.take mid.toNat, v.drop mid.toNat)
        ∧ v.take mid.toNat ++ v.drop mid.toNat = v)
    ∧ ((v.length : Int) < mid → split_at v mid = .error .indexError) := by
  constructor
  · intro h0 h1
    have hn : ¬ (v.length : Int) < mid := by omega
    refine ⟨?_, List.take_append_drop _ v⟩
    simp [split_at, hn, pySliceTo, pySliceFrom, pyIdx_of_mem _ _ h0 h1]
  · intro h
    simp [split_at, h]

/-- Witness for C4 at `v = [1,2,3]` with `mid = 2` (valid) and `mid = 9`
(out of range). -/
theorem split_at_spec_witness :
    (split_at ([1, 2, 3] : List Nat) 2 = .ok ([1, 2], [3])
      ∧ ([1, 2] : List Nat) ++ [3] = [1, 2, 3])
    ∧ split_at ([1, 2, 3] : List Nat) 9 = .error .indexError := by
  constructor
  · have h := (split_at_spec ([1, 2, 3] : List Nat) 2).1 (by decide) (by decide)
    simpa using h
  · exact (split_at_spec ([1, 2, 3] : List Nat) 9).2 (by decide)

/-- C5: `split_at_checked` is total (it returns a plain pair, never an error),
the two halves always partition the length, and any `mid > len` is clamped to
`len`, yielding `(whole, empty)`. -/
theorem split_at_checked_spec (v : List α) (mid : Int) :
    (split_at_checked v mid).1.length + (split_at_checked v mid).2.length
        = v.length
    ∧ ((v.length : Int) < mid → split_at_checked v mid = (v, [])) := by
  constructor
  · have h := pyIdx_le v.length mid
    simp only [split_at_checked, pySliceTo, pySliceFrom, List.length_take,
      List.length_drop]
    omega
  · intro h
    simp [split_at_checked, pySliceTo, pySliceFrom, pyIdx_of_gt _ _ h]

/-- Witness for C5 at `v = [1,2,3]` with the overshooting `mid = 7`. -/
theorem split_at_checked_spec_witness :
    ((split_at_checked ([1, 2, 3] : List Nat) 7).1.length
        + (split_at_checked ([1, 2, 3] : List Nat) 7).2.length = 3)
    ∧ split_at_checked ([1, 2, 3] : List Nat) 7 = ([1, 2, 3], []) := by
  have h := split_at_checked_spec ([1, 2, 3] : List Nat) 7
  exact ⟨h.1, h.2 (by decide)⟩

/-- The `sain.option.Some` class: a single-constructor wrapper whose payload
may itself be the Python `None` (modelled by an inner `Option`).  The library
has no separate absent variant; `Some(None)` doubles as its absent marker. -/
structure SomeCls (α : Type) where
  value : Option α
  deriving DecidableEq, Repr

/-- The `sain.option.NOTHING` constant, i.e. `Some(None)`. -/
def NOTHING {α : Type} : SomeCls α := ⟨none⟩

/-- A Python expression slot of type `Option[T]` can hold either a bare Python
`None` (`pyNone`, a true absent value at the language level) or an instance of
the `Some` class (`someObj`, a present/constructed wrapper object). -/
inductive PyOptVal (α : Type) where
  | pyNone
  | someObj (s : SomeCls α)
  deriving DecidableEq, Repr

/-- Modelled from the spec: the composite `self.iter().position(pred)
.transpose()` used by `Slice.split_once` lives in `TrustedIter` and
`Some.transpose`, which are not present in the source tree (only their call
site is).  Per the spec, `split_once` "scans left to right" and splits at "the
first index whose element satisfies `predicate`", so the composite is the
index of the first match, or `None` when no element matches. -/
def position : List α → (α → Bool) → Option Nat
  | [], _ => none
  | x :: xs, p => if p x then some 0 else (position xs p).map (· + 1)

/-- `Slice.split_once(pred)` from `slice.py`: when a first matching index
exists it returns `Some((self[:index], self[index+1:]))`; otherwise the source
returns `Some(None)` — a constructed `Some` instance, not a bare `None`. -/
def split_once (v : List α) (p : α → Bool) : PyOptVal (List α × List α) :=
  match position v p with
  | some i => .someObj ⟨some (pySliceTo v (i : Int), pySliceFrom v ((i : Int) + 1))⟩
  | none => .someObj NOTHING

theorem position_of_first (p : α → Bool) :
    ∀ (v : List α) (i : Nat) (hi : i < v.length),
      p (v.get ⟨i, hi⟩) = true →
      (∀ (j : Nat) (hj : j < v.length), j < i → p (v.get ⟨j, hj⟩) = false) →
      position v p = some i := by
  intro v
  induction v with
  | nil => intro i hi; simp at hi
  | cons x xs ih =>
    intro i hi hmatch hbefore
    cases i with
    | zero =>
      simp only [List.get] at hmatch
      simp [position, hmatch]
    | succ i =>
      have hx : p x = false := by
        have := hbefore 0 (by simp) (Nat.succ_pos i)
        simpa using this
      have hrec : position xs p = some i := by
        refine ih i (by simpa using hi) ?_ ?_
        · simpa using hmatch
        · intro j hj hji
          have := hbefore (j + 1) (by simpa using hj) (by omega)
          simpa using this
      simp [position, hx, hrec]

theorem position_of_none (p : α → Bool) :
    ∀ (v : List α), (∀ x ∈ v, p x = false) → position v p = none := by
  intro v
  induction v with
  | nil => intro _; rfl
  | cons x xs ih =>
    intro hall
    have hx : p x = false := hall x (by simp)
    have hrec := ih (fun y hy => hall y (by simp [hy]))
    simp [position, hx, hrec]

/-- C3: `split_once` returns the prefix before the first element satisfying
the predicate and the suffix after it, with the matching element excluded from
both halves (`take i` and `drop (i+1)`); when no element satisfies the
predicate, the result is still a constructed `Some` wrapper (`Some(None)`,
i.e. `NOTHING`), never a bare/true absent `None`. -/
theorem split_once_spec (v : List α) (p : α → Bool) :
    (∀ (i : Nat) (hi : i < v.length),
        p (v.get ⟨i, hi⟩) = true →
        (∀ (j : Nat) (hj : j < v.length), j < i → p (v.get ⟨j, hj⟩) = false) →
        split_once v p = .someObj ⟨some (v.take i, v.drop (i + 1))⟩)
    ∧ ((∀ x ∈ v, p x = false) →
        split_once v p = .someObj NOTHING ∧ split_once v p ≠ .pyNone) := by
  constructor
  · intro i hi hmatch hbefore
    have hpos := position_of_first p v i hi hmatch hbefore
    have h1 : pySliceTo v (i : Int) = v.take i := by
      simp [pySliceTo, pyIdx_of_mem v.length (i : Int) (by omega) (by omega)]
    have h2 : pySliceFrom v ((i : Int) + 1) = v.drop (i + 1) := by
      have : ((i : Int) + 1) = ((i + 1 : Nat) : Int) := by push_cast; ring
      rw [pySliceFrom, this,
        pyIdx_of_mem v.length ((i + 1 : Nat) : Int) (by omega) (by omega)]
      simp
    simp [split_once, hpos, h1, h2]
  · intro hall
    have hpos := position_of_none p v hall
    simp [split_once, hpos]

/-- Witness for C3 at the docstring example `[1,2,3,2,4]` with predicate
`x == 2` (first match at index 1) and with the never-matching `x == 9`. -/
theorem split_once_spec_witness :
    split_once ([1, 2, 3, 2, 4] : List Nat) (fun x => x == 2)
        = .someObj ⟨some ([1], [3, 2, 4])⟩
    ∧ split_once ([1, 2, 3, 2, 4] : List Nat) (fun x => x == 9)
        = .someObj NOTHING := by
  constructor
  · have h := (split_once_spec ([1, 2, 3, 2, 4] : List Nat) (fun x => x == 2)).1
      1 (by decide) (by decide) (by decide)
    simpa using h
  · exact ((split_once_spec ([1, 2, 3, 2, 4] : List Nat)
      (fun x => x == 9)).2 (by decide)).1

/-- State of the `Windows` iterator from `slice.py`: the remaining view `_v`
and the window size `_size` (a Python `int`). -/
structure Windows (α : Type) where
  v : List α
  size : Int
  deriving DecidableEq, Repr

/-- `Windows.__init__` (reached through `Slice.windows(size)`): raises
`ValueError` eagerly when `size == 0`, before any item is requested. -/
def windowsInit (s : List α) (size : Int) : Except PyErr (Windows α) :=
  if size = 0 then .error .valueError else .ok ⟨s, size⟩

/-- `Windows.__next__`: stops (`StopIteration`, here `none`) once
`self._size > len(self._v)`; otherwise yields `self._v[:self._size]` and steps
the state to `self._v[1:]`. -/
def windowsNext (w : Windows α) : Option (List α × Windows α) :=
  if (w.v.length : Int) < w.size then none
  else some (pySliceTo w.v w.size, ⟨pySliceFrom w.v 1, w.size⟩)

/-- Drive the iterator protocol on a `Windows` state, collecting every yielded
window; `fuel` bounds the number of `__next__` calls and the run is exhaustive
as soon as `fuel > len(v)`, since every yield shortens the view by one. -/
def windowsRun : Nat → Windows α → List (List α)
  | 0, _ => []
  | fuel + 1, w =>
    match windowsNext w with
    | none => []
    | some (x, w') => x :: windowsRun fuel w'

theorem windowsRun_eq (k : Nat) (hk : 1 ≤ k) :
    ∀ (fuel : Nat) (v : List α), v.length ≤ fuel →
      windowsRun (fuel + 1) ⟨v, (k : Int)⟩
        = (List.range (v.length + 1 - k)).map (fun i => (v.drop i).take k) := by
  intro fuel
  induction fuel with
  | zero =>
    intro v hv
    have hnil : v = [] := List.length_eq_zero.mp (by omega)
    subst hnil
    have hlt : ((List.length ([] : List α)) : Int) < (k : Int) := by
      simp; omega
    have hc : 1 - k = 0 := by omega
    have h0 : 0 < k := hk
    simp [windowsRun, windowsNext, hlt, hc, h0]
  | succ fuel ih =>
    intro v hv
    by_cases hbig : (v.length : Int) < (k : Int)
    · have hcount : v.length + 1 - k = 0 := by omega
      simp [windowsRun, windowsNext, hbig, hcount]
    · have hkn : k ≤ v.length := by omega
      have hpos : 0 < v.length := by omega
      have hhead : pySliceTo v (k : Int) = v.take k := by
        simp [pySliceTo, pyIdx_of_mem v.length (k : Int) (by omega) (by omega)]
      have htail : pySliceFrom v (1 : Int) = v.drop 1 := by
        simp [pySliceFrom, pyIdx_of_mem v.length (1 : Int) (by omega) (by omega)]
      have hstep : windowsRun (fuel + 1 + 1) ⟨v, (k : Int)⟩
          = v.take k :: windowsRun (fuel + 1) ⟨v.drop 1, (k : Int)⟩ := by
        simp [windowsRun, windowsNext, hbig, hhead, htail]
      rw [hstep, ih (v.drop 1) (by simp; omega)]
      have hlen : (v.drop 1).length = v.length - 1 := by simp
      have hcount : v.length + 1 - k = (v.length - k) + 1 := by omega
      have hcount2 : (v.drop 1).length + 1 - k = v.length - k := by
        rw [hlen]; omega
      rw [hcount, hcount2, List.range_succ_eq_map, List.map_cons, List.map_map]
      refine congrArg₂ _ (by simp) ?_
      refine List.map_congr_left ?_
      intro i _
      simp [List.drop_drop, Function.comp, Nat.add_comm]

/-- C6: `windows(0)` raises `ValueError` eagerly at iterator creation; for
every `k ≥ 1` over a slice of length `n`, the iterator yields exactly
`n + 1 - k` windows (natural subtraction, i.e. `max(0, n-k+1)`), the `i`-th
window being `v[i : i+k]` — stepping by one — and every window having length
exactly `k`. -/
theorem windows_spec (v : List α) (k : Nat) :
    windowsInit v (0 : Int) = .error .valueError
    ∧ (1 ≤ k →
        windowsInit v ((k : Nat) : Int) = .ok ⟨v, (k : Int)⟩
        ∧ windowsRun (v.length + 1) ⟨v, (k : Int)⟩
            = (List.range (v.length + 1 - k)).map (fun i => (v.drop i).take k)
        ∧ (windowsRun (v.length + 1) ⟨v, (k : Int)⟩).length = v.length + 1 - k
        ∧ ∀ w ∈ windowsRun (v.length + 1) ⟨v, (k : Int)⟩, w.length = k) := by
  refine ⟨by simp [windowsInit], ?_⟩
  intro hk
  have hrun := windowsRun_eq k hk v.length v (Nat.le_refl _)
  refine ⟨?_, hrun, ?_, ?_⟩
  · have : ((k : Nat) : Int) ≠ 0 := by omega
    simp [windowsInit, this]
  · rw [hrun]; simp
  · intro w hw
    rw [hrun] at hw
    obtain ⟨i, hi, hwi⟩ := List.mem_map.mp hw
    have hib : i < v.length + 1 - k := List.mem_range.mp hi
    have : ((v.drop i).take k).length = k := by
      simp only [List.length_take, List.length_drop]
      omega
    rw [← hwi]; exact this

/-- Witness for C6 on `[10, 20, 30, 40]` with `k = 2` (three windows) and the
eager failure at `k = 0`. -/
theorem windows_spec_witness :
    windowsInit ([10, 20, 30, 40] : List Nat) (0 : Int) = .error .valueError
    ∧ (windowsRun (4 + 1) ⟨([10, 20, 30, 40] : List Nat), ((2 : Nat) : Int)⟩).length
        = 4 + 1 - 2 := by
  have h := windows_spec ([10, 20, 30, 40] : List Nat) 2
  exact ⟨h.1, (h.2 (by decide)).2.2.1⟩

/-- The `Vec` class from `vec.py`, value view for the capacity claims: the
backing list (`_ptr`, which for a non-leaked vec is the very same object as
the inherited `_buf`) and the optional capacity ceiling `_capacity`, a Python
`int` or `None`. -/
structure Vec (α : Type) where
  ptr : List α
  capacity : Option Int
  deriving DecidableEq, Repr

/-- `Vec.with_capacity(n)`: `Vec()` (empty, capacity `None`) followed by
`v._capacity = capacity`. -/
def Vec.with_capacity (α : Type) (n : Int) : Vec α := ⟨[], some n⟩

/-- `Vec.len()` (through `Slice.len`, i.e. `len(self._buf)`). -/
def Vec.len (v : Vec α) : Nat := v.ptr.length

/-- The `sain.result` type: `Ok(value)` or `Err(payload)`.  In
`push_within_capacity` the `Ok` payload is Python `None`, modelled `Unit`. -/
inductive PyResult (ε : Type) (α : Type) where
  | ok (val : α)
  | err (e : ε)
  deriving DecidableEq, Repr

/-- `Vec.push_within_capacity(x)`: rejects with `Err(x)` exactly when
`self.len() == self._capacity` (Python `==` between an `int` and `None` is
`False`), otherwise appends.  Returns the result with the updated state. -/
def Vec.push_within_capacity (v : Vec α) (x : α) : PyResult α Unit × Vec α :=
  if v.capacity = some (v.len : Int) then (.err x, v)
  else (.ok (), { v with ptr := v.ptr ++ [x] })

/-- A sequence of `push_within_capacity` calls, keeping only the state. -/
def Vec.pushSeq (v : Vec α) (xs : List α) : Vec α :=
  xs.foldl (fun acc x => (acc.push_within_capacity x).2) v

/-- `Vec.append(value)`: `self._ptr.append(value)`, unconditional. -/
def Vec.append (v : Vec α) (x : α) : Vec α := { v with ptr := v.ptr ++ [x] }

/-- `Vec.extend(iterable)`: `self._ptr.extend(iterable)`, unconditional. -/
def Vec.extend (v : Vec α) (xs : List α) : Vec α := { v with ptr := v.ptr ++ xs }

/-- `Vec.push(item)`: when a capacity is set, delegates to
`push_within_capacity` and discards its result; otherwise appends. -/
def Vec.push (v : Vec α) (x : α) : Vec α :=
  match v.capacity with
  | some _ => (v.push_within_capacity x).2
  | none => { v with ptr := v.ptr ++ [x] }

theorem pushSeq_invariant (n : Int) :
    ∀ (xs : List α) (v : Vec α), v.capacity = some n → (v.len : Int) ≤ n →
      (v.pushSeq xs).capacity = some n ∧ ((v.pushSeq xs).len : Int) ≤ n := by
  intro xs
  induction xs with
  | nil => intro v hc hl; exact ⟨hc, hl⟩
  | cons x xs ih =>
    intro v hc hl
    have hstep : Vec.pushSeq v (x :: xs) = Vec.pushSeq (v.push_within_capacity x).2 xs := by
      simp [Vec.pushSeq]
    rw [hstep]
    by_cases hfull : v.capacity = some (v.len : Int)
    · have hv : (v.push_within_capacity x).2 = v := by
        simp [Vec.push_within_capacity, hfull]
      rw [hv]; exact ih v hc hl
    · have hv : (v.push_within_capacity x).2 = { v with ptr := v.ptr ++ [x] } := by
        simp [Vec.push_within_capacity, hfull]
      have hne : n ≠ (v.len : Int) := by
        intro heq; exact hfull (by rw [hc, heq])
      refine ih _ (by simp [hv, hc]) ?_
      have : ({ v with ptr := v.ptr ++ [x] } : Vec α).len = v.len + 1 := by
        simp [Vec.len]
      rw [hv, this]
      push_cast
      omega

/-- C1 counterexample: `Vec.with_capacity(-1)` (a legal Python call) violates
`length <= n` already after the empty sequence of `push_within_capacity`
calls — the empty vector has length `0` and `0 <= -1` is false. -/
theorem with_capacity_neg_counterexample :
    ¬ ((((Vec.with_capacity Nat (-1)).pushSeq []).len : Int) ≤ -1) := by
  decide

/-- C1 (amended to non-negative capacities): for every `n ≥ 0`, a vector built
by `with_capacity(n)` keeps `length <= n` after any sequence of
`push_within_capacity` calls, and whenever a push is rejected the `Err`
carries back exactly the element that was passed in, with the vector left
unchanged. -/
theorem push_within_capacity_spec (α : Type) (n : Int) (hn : 0 ≤ n)
    (xs : List α) :
    (((Vec.with_capacity α n).pushSeq xs).len : Int) ≤ n
    ∧ ∀ (v : Vec α) (x e : α),
        (v.push_within_capacity x).1 = .err e →
        e = x ∧ (v.push_within_capacity x).2 = v := by
  constructor
  · exact (pushSeq_invariant n xs (Vec.with_capacity α n) rfl
      (by simp [Vec.with_capacity, Vec.len]; omega)).2
  · intro v x e herr
    by_cases hfull : v.capacity = some (v.len : Int)
    · simp [Vec.push_within_capacity, hfull] at herr ⊢
      exact herr.symm
    · simp [Vec.push_within_capacity, hfull] at herr

/-- Witness for C1 (amended) at the spec's concrete scenario: capacity `2`,
pushing three elements leaves the length at most `2`, and the rejected third
push returns `Err(7)` with the vector unchanged. -/
theorem push_within_capacity_spec_witness :
    ((((Vec.with_capacity Nat 2).pushSeq [5, 6, 7]).len : Int) ≤ 2)
    ∧ ((Vec.mk [5, 6] (some 2)).push_within_capacity 7).2 = Vec.mk [5, 6] (some 2) := by
  have h := push_within_capacity_spec Nat 2 (by decide) [5, 6, 7]
  refine ⟨h.1, ?_⟩
  exact (h.2 (Vec.mk [5, 6] (some 2)) 7 7 (by decide)).2

/-- C8: at the capacity ceiling (`len == n`), `append` and `extend` still grow
the vector unconditionally — the length then exceeds `n` — while `push`
delegates to `push_within_capacity` and leaves the vector unchanged, and
`push_within_capacity` rejects, handing the element back. -/
theorem append_extend_ignore_capacity (v : Vec α) (x : α) (xs : List α)
    (n : Int) (hc : v.capacity = some n) (hl : (v.len : Int) = n) :
    (v.append x).ptr = v.ptr ++ [x]
    ∧ ((v.append x).len : Int) = n + 1
    ∧ (v.extend xs).ptr = v.ptr ++ xs
    ∧ ((v.extend xs).len : Int) = n + (xs.length : Int)
    ∧ v.push x = v
    ∧ v.push_within_capacity x = (.err x, v) := by
  have hfull : v.capacity = some (v.len : Int) := by rw [hc, hl]
  refine ⟨rfl, ?_, rfl, ?_, ?_, ?_⟩
  · simp [Vec.append, Vec.len] at hl ⊢
    omega
  · simp [Vec.extend, Vec.len] at hl ⊢
    omega
  · simp [Vec.push, hc, Vec.push_within_capacity, hfull, hl]
  · simp [Vec.push_within_capacity, hfull]

/-- Witness for C8 at a full `with_capacity(0)` vector: `append` still appends
(length `1 > 0`) while `push` is a no-op. -/
theorem append_extend_ignore_capacity_witness :
    ((Vec.with_capacity Nat 0).append 9).ptr = [] ++ [9]
    ∧ (Vec.with_capacity Nat 0).push 9 = Vec.with_capacity Nat 0 := by
  have h := append_extend_ignore_capacity (Vec.with_capacity Nat 0) 9 []
    0 rfl (by decide)
  exact ⟨h.1, h.2.2.2.2.1⟩

/-- A heap of Python list/array objects, addressed by index; reading an
unallocated address yields the empty list (such reads are never reached on
the claims' code paths). -/
abbrev Heap (α : Type) : Type := List (List α)

/-- Dereference an address. -/
def Heap.get (h : Heap α) (a : Nat) : List α := List.getD h a []

/-- In-place mutation of the object at an address. -/
def Heap.set (h : Heap α) (a : Nat) (l : List α) : Heap α := List.set h a l

/-- Allocate a fresh object, returning the new heap and its address. -/
def Heap.alloc (h : Heap α) (l : List α) : Heap α × Nat := (h ++ [l], h.length)

theorem Heap.get_set_self (h : Heap α) :
    ∀ (a : Nat) (l : List α), a < h.length → Heap.get (Heap.set h a l) a = l := by
  induction h with
  | nil => intro a l ha; simp at ha
  | cons x xs ih =>
    intro a l ha
    cases a with
    | zero => rfl
    | succ a => exact ih a l (by simpa using ha)

theorem Heap.get_append_nil (h : Heap α) :
    ∀ (a : Nat), Heap.get (h ++ [[]]) a = Heap.get h a := by
  induction h with
  | nil =>
    intro a
    cases a with
    | zero => rfl
    | succ a => cases a <;> rfl
  | cons x xs ih =>
    intro a
    cases a with
    | zero => rfl
    | succ a => exact ih a

theorem Heap.lt_of_get_ne (h : Heap α) :
    ∀ (a : Nat), Heap.get h a ≠ [] → a < h.length := by
  induction h with
  | nil => intro a hne; exact absurd rfl hne
  | cons x xs ih =>
    intro a hne
    cases a with
    | zero => simp
    | succ a => simpa using ih a hne

/-- Python integer indexing `l[i]` as in `Slice.__getitem__`'s scalar branch:
negative indices count from the end, out-of-range raises `IndexError`. -/
def pyGetElem (l : List α) (i : Int) : Except PyErr α :=
  if h : 0 ≤ i ∧ i < (l.length : Int) then
    .ok (l.get ⟨i.toNat, by omega⟩)
  else if h2 : i < 0 ∧ 0 ≤ i + (l.length : Int) then
    .ok (l.get ⟨(i + (l.length : Int)).toNat, by omega⟩)
  else .error .indexError

/-- Heap view of a `Vec` object from `vec.py`: the `_ptr` slot (deleted by
`leak`, hence optional), the inherited `_buf` slot set once at construction,
and `_capacity`. -/
structure VecRef where
  ptr : Option Nat
  buf : Nat
  capacity : Option Int
  deriving DecidableEq, Repr

/-- `Vec(existing_list)`: `self._ptr = iterable` (the same object, no copy)
and `super().__init__(self._ptr)` stores that same object in `_buf`;
`_capacity` is `None`. -/
def VecRef.fromList (a : Nat) : VecRef := ⟨some a, a, none⟩

/-- `Vec.with_capacity(n)` in the heap view: `Vec()` allocates a fresh empty
list for both slots, then sets the capacity ceiling. -/
def VecRef.mk_with_capacity (h : Heap α) (n : Int) : Heap α × VecRef :=
  ((Heap.alloc h []).1, ⟨some (Heap.alloc h []).2, (Heap.alloc h []).2, some n⟩)

/-- `Vec.len()` through `Slice.len`: `len(self._buf)`. -/
def VecRef.len (h : Heap α) (v : VecRef) : Nat := (Heap.get h v.buf).length

/-- Indexed access `v[i]` through `Slice.__getitem__`: `self._buf[index]`. -/
def VecRef.getItem (h : Heap α) (v : VecRef) (i : Int) : Except PyErr α :=
  pyGetElem (Heap.get h v.buf) i

/-- Iteration (`Sequence.__iter__` over `_buf`): the current element list. -/
def VecRef.toList (h : Heap α) (v : VecRef) : List α := Heap.get h v.buf

/-- Equality `Slice.__eq__`: `self._buf == value`. -/
def VecRef.eqList [DecidableEq α] (h : Heap α) (v : VecRef) (l : List α) : Bool :=
  decide (Heap.get h v.buf = l)

/-- `Vec.leak()`: `tmp = self._ptr; del self._ptr; return tmp`.  Touching
`self._ptr` on an already-leaked vec raises `AttributeError`. -/
def VecRef.leak (v : VecRef) : Except PyErr (Nat × VecRef) :=
  match v.ptr with
  | none => .error .attributeError
  | some a => .ok (a, { v with ptr := none })

/-- `Vec.push(item)`: with a capacity set it first calls
`push_within_capacity`, whose `self.len()` check reads `_buf` — the `_ptr`
slot is only touched if the vec is not full; without a capacity it goes
straight to `self._ptr.append(item)`. -/
def VecRef.push (h : Heap α) (v : VecRef) (x : α) : Except PyErr (Heap α) :=
  match v.capacity with
  | some c =>
    if (VecRef.len h v : Int) = c then .ok h
    else
      match v.ptr with
      | none => .error .attributeError
      | some a => .ok (Heap.set h a (Heap.get h a ++ [x]))
  | none =>
    match v.ptr with
    | none => .error .attributeError
    | some a => .ok (Heap.set h a (Heap.get h a ++ [x]))

/-- `Vec.pop()` (default index `-1`): evaluating `not self._ptr` on a leaked
vec raises `AttributeError`; otherwise pops the last element, or returns the
library's absent marker on an empty list. -/
def VecRef.pop (h : Heap α) (v : VecRef) : Except PyErr (Option α × Heap α) :=
  match v.ptr with
  | none => .error .attributeError
  | some a =>
    if (Heap.get h a).isEmpty then .ok (none, h)
    else .ok ((Heap.get h a).getLast?, Heap.set h a (Heap.get h a).dropLast)

/-- `Vec.extend(iterable)`: `self._ptr.extend(iterable)`. -/
def VecRef.extend (h : Heap α) (v : VecRef) (xs : List α) : Except PyErr (Heap α) :=
  match v.ptr with
  | none => .error .attributeError
  | some a => .ok (Heap.set h a (Heap.get h a ++ xs))

/-- `Vec.clear()`: `self._ptr.clear()`. -/
def VecRef.clear (h : Heap α) (v : VecRef) : Except PyErr (Heap α) :=
  match v.ptr with
  | none => .error .attributeError
  | some a => .ok (Heap.set h a [])

/-- `Vec.split_off(at)`: first computes `len_ = self.len()` (through `_buf`)
and raises `IndexError` when `at > len_`; only then does `if not self._ptr`
touch the pointer slot (raising `AttributeError` on a leaked vec); an empty
list returns `self` unchanged; otherwise the tail `self._ptr[at:len_]` is
sliced into a fresh list, deleted from the original, and wrapped in a new
aliasing `Vec`. -/
def VecRef.split_off (h : Heap α) (v : VecRef) (i : Int) :
    Except PyErr (Heap α × VecRef) :=
  if (VecRef.len h v : Int) < i then .error .indexError
  else
    match v.ptr with
    | none => .error .attributeError
    | some a =>
      if (Heap.get h a).isEmpty then .ok (h, v)
      else
        .ok (((Heap.set h a (pySliceTo (Heap.get h a) i)).alloc
                (pySliceFrom (Heap.get h a) i)).1,
             VecRef.fromList ((Heap.set h a (pySliceTo (Heap.get h a) i)).alloc
                (pySliceFrom (Heap.get h a) i)).2)

/-- C7: a `Vec` built from an existing list aliases it without copying —
appending `2` to the list `L = [1]` externally makes `v.len() == 2` and
`v[1] == 2`; in general `v`'s reads always see the current contents of `L`'s
cell, and `v.push(x)` writes into that very cell, so mutation is mutually
visible. -/
theorem alias_visibility (h : Heap Nat) (a : Nat) (hL : Heap.get h a = [1]) :
    VecRef.len (Heap.set h a (Heap.get h a ++ [2])) (VecRef.fromList a) = 2
    ∧ VecRef.getItem (Heap.set h a (Heap.get h a ++ [2])) (VecRef.fromList a) 1
        = .ok 2
    ∧ (∀ h2 : Heap Nat, VecRef.toList h2 (VecRef.fromList a) = Heap.get h2 a)
    ∧ (∀ x : Nat, VecRef.push h (VecRef.fromList a) x
        = .ok (Heap.set h a (Heap.get h a ++ [x]))) := by
  have ha : a < h.length := Heap.lt_of_get_ne h a (by rw [hL]; simp)
  have hset : Heap.get (Heap.set h a (Heap.get h a ++ [2])) a = [1, 2] := by
    rw [Heap.get_set_self h a _ ha, hL]
    rfl
  refine ⟨?_, ?_, fun _ => rfl, fun _ => rfl⟩
  · simp [VecRef.len, VecRef.fromList, hset]
  · simp only [VecRef.getItem, VecRef.fromList, hset]
    rfl

/-- Witness for C7 at the concrete heap `[[1]]` holding `L = [1]` at address
`0`. -/
theorem alias_visibility_witness :
    VecRef.len (Heap.set [[1]] 0 (Heap.get [[1]] 0 ++ [2])) (VecRef.fromList 0) = 2
    ∧ VecRef.getItem (Heap.set [[1]] 0 (Heap.get [[1]] 0 ++ [2]))
        (VecRef.fromList 0) 1 = .ok 2 := by
  have h := alias_visibility [[1]] 0 rfl
  exact ⟨h.1, h.2.1⟩

/-- C9 counterexample: on the leaked `Vec.with_capacity(0)` (heap `[[]]`, both
slots at address `0`, `_ptr` deleted), `push` does **not** raise
`AttributeError` — `push_within_capacity`'s fullness check reads `_buf`,
finds `len == capacity`, and returns `Err` before ever touching `_ptr` — and
`split_off` with an out-of-range position raises `IndexError` first. -/
theorem vec_leak_counterexample :
    VecRef.mk_with_capacity ([] : Heap Nat) 0
        = ([[]], ⟨some 0, 0, some 0⟩)
    ∧ VecRef.leak ⟨some 0, 0, some 0⟩ = .ok (0, ⟨none, 0, some 0⟩)
    ∧ VecRef.push ([[]] : Heap Nat) ⟨none, 0, some 0⟩ 7 = .ok [[]]
    ∧ VecRef.split_off ([[]] : Heap Nat) ⟨none, 0, some 0⟩ 5
        = .error .indexError := by
  refine ⟨rfl, rfl, ?_, ?_⟩ <;> rfl

/-- C9 (amended): after `leak` on a `Vec` built from a list (so `_capacity`
is `None`), the pointer-using operations `push`, `pop`, `extend`, `clear`, and
`split_off` (the latter when called with an in-range position, the position
check coming first) raise `AttributeError`; on a leaked capacity-bounded vec,
`push` raises unless the length equals the ceiling, in which case it returns
silently without touching the pointer.  The `Slice`-inherited reads — `len`,
indexed access, iteration, equality — still go through the separately stored
`_buf` and succeed, continuing to observe the leaked list (including external
mutations of it): the vector is neither empty nor fully unusable. -/
theorem vec_leak_spec (h : Heap Nat) (a : Nat) :
    VecRef.leak (VecRef.fromList a) = .ok (a, ⟨none, a, none⟩)
    ∧ (∀ x, VecRef.push h (⟨none, a, none⟩ : VecRef) x = .error .attributeError)
    ∧ VecRef.pop h (⟨none, a, none⟩ : VecRef) = .error .attributeError
    ∧ (∀ xs, VecRef.extend h (⟨none, a, none⟩ : VecRef) xs
        = .error .attributeError)
    ∧ VecRef.clear h (⟨none, a, none⟩ : VecRef) = .error .attributeError
    ∧ (∀ i : Int, i ≤ (VecRef.len h (⟨none, a, none⟩ : VecRef) : Int) →
        VecRef.split_off h (⟨none, a, none⟩ : VecRef) i
          = .error .attributeError)
    ∧ (∀ (c : Int) (x : Nat),
        VecRef.push h (⟨none, a, some c⟩ : VecRef) x
          = if (VecRef.len h (⟨none, a, some c⟩ : VecRef) : Int) = c then .ok h
            else .error .attributeError)
    ∧ VecRef.len h (⟨none, a, none⟩ : VecRef) = (Heap.get h a).length
    ∧ (∀ i : Int, 0 ≤ i → i < ((Heap.get h a).length : Int) →
        ∃ x, VecRef.getItem h (⟨none, a, none⟩ : VecRef) i = .ok x
          ∧ (Heap.get h a).get? i.toNat = some x)
    ∧ VecRef.toList h (⟨none, a, none⟩ : VecRef) = Heap.get h a
    ∧ VecRef.eqList h (⟨none, a, none⟩ : VecRef) (Heap.get h a) = true
    ∧ (∀ x : Nat, a < h.length →
        VecRef.len (Heap.set h a (Heap.get h a ++ [x]))
            (⟨none, a, none⟩ : VecRef) = (Heap.get h a).length + 1) := by
  refine ⟨rfl, fun _ => rfl, rfl, fun _ => rfl, rfl, ?_, ?_, rfl, ?_, rfl, ?_, ?_⟩
  · intro i hi
    have hn : ¬ (VecRef.len h (⟨none, a, none⟩ : VecRef) : Int) < i := by omega
    simp only [VecRef.split_off, if_neg hn]
  · intro c x
    by_cases hc : (VecRef.len h (⟨none, a, some c⟩ : VecRef) : Int) = c <;>
      simp [VecRef.push, hc]
  · intro i h0 hlen
    have hidx : i.toNat < (Heap.get h a).length := by omega
    refine ⟨(Heap.get h a).get ⟨i.toNat, hidx⟩, ?_, ?_⟩
    · simp only [VecRef.getItem, pyGetElem]
      rw [dif_pos ⟨h0, hlen⟩]
    · exact List.get?_eq_get hidx
  · simp [VecRef.eqList]
  · intro x ha
    simp [VecRef.len, Heap.get_set_self h a _ ha]

/-- Witness for C9 (amended) at the heap `[[1, 2, 3]]`: `split_off(1)` on the
leaked vec raises `AttributeError` while `getItem 1` still reads `2`. -/
theorem vec_leak_spec_witness :
    VecRef.split_off ([[1, 2, 3]] : Heap Nat) (⟨none, 0, none⟩ : VecRef) 1
        = .error .attributeError
    ∧ VecRef.getItem ([[1, 2, 3]] : Heap Nat) (⟨none, 0, none⟩ : VecRef) 1
        = .ok 2 := by
  obtain ⟨-, -, -, -, -, hsplit, -, -, hget, -⟩ :=
    vec_leak_spec ([[1, 2, 3]] : Heap Nat) 0
  refine ⟨hsplit 1 (by decide), ?_⟩
  obtain ⟨x, hx, hx2⟩ := hget 1 (by decide) (by decide)
  have h2x : (2 : Nat) = x := by
    have hh : Heap.get ([[1, 2, 3]] : Heap Nat) 0 = [1, 2, 3] := rfl
    rw [hh] at hx2
    simpa using hx2
  subst h2x
  exact hx

/-- Heap view of a `Bytes` / `BytesMut` object from `buf.py`: the single
`_buf` slot holding the backing `array`, `none` once `leak` has deleted it.
`BytesMut` is the same class shape (it subclasses `Bytes` and adds the
mutating methods); both ownership moves go through `Bytes.leak`. -/
structure BytesObj where
  buf : Option Nat
  deriving DecidableEq, Repr

/-- `Bytes.leak()`: `arr = self._buf; del self._buf; return arr`.  Touching
`self._buf` once deleted raises `AttributeError`. -/
def BytesObj.leak (b : BytesObj) : Except PyErr (Nat × BytesObj) :=
  match b.buf with
  | none => .error .attributeError
  | some a => .ok (a, ⟨none⟩)

/-- `Bytes.from_static_unchecked(arr)`: `cls()` allocates a fresh empty array
(immediately orphaned), then `b._buf = arr` points the new object at the very
same array, copying nothing. -/
def BytesObj.from_static_unchecked (h : Heap Nat) (a : Nat) : Heap Nat × BytesObj :=
  ((Heap.alloc h []).1, ⟨some a⟩)

/-- `Bytes.to_mut()`: `BytesMut.from_static_unchecked(self.leak())` — returns
the updated heap, the consumed `self`, and the new `BytesMut`. -/
def BytesObj.to_mut (h : Heap Nat) (b : BytesObj) :
    Except PyErr (Heap Nat × BytesObj × BytesObj) :=
  match b.leak with
  | .error e => .error e
  | .ok (a, consumed) =>
    .ok ((BytesObj.from_static_unchecked h a).1, consumed,
      (BytesObj.from_static_unchecked h a).2)

/-- `BytesMut.freeze()`: `Bytes.from_static_unchecked(self.leak())` — the
inverse move, with the identical implementation shape. -/
def BytesObj.freeze (h : Heap Nat) (b : BytesObj) :
    Except PyErr (Heap Nat × BytesObj × BytesObj) :=
  match b.leak with
  | .error e => .error e
  | .ok (a, consumed) =>
    .ok ((BytesObj.from_static_unchecked h a).1, consumed,
      (BytesObj.from_static_unchecked h a).2)

/-- `Bytes.__len__` through `Slice.__len__`: `len(self._buf)`. -/
def BytesObj.lenB (h : Heap Nat) (b : BytesObj) : Except PyErr Nat :=
  match b.buf with
  | none => .error .attributeError
  | some a => .ok (Heap.get h a).length

/-- Scalar `Bytes.__getitem__`: `self._buf[index]`. -/
def BytesObj.getItem (h : Heap Nat) (b : BytesObj) (i : Int) : Except PyErr Nat :=
  match b.buf with
  | none => .error .attributeError
  | some a => pyGetElem (Heap.get h a) i

/-- `Bytes.to_bytes()`: evaluating `not self._buf` raises on a moved-from
object; otherwise the bytes of the backing array (empty array gives `b""`). -/
def BytesObj.to_bytes (h : Heap Nat) (b : BytesObj) : Except PyErr (List Nat) :=
  match b.buf with
  | none => .error .attributeError
  | some a => .ok (Heap.get h a)

/-- `Bytes.is_empty()` through `Slice.is_empty`: `not self._buf`. -/
def BytesObj.is_empty (h : Heap Nat) (b : BytesObj) : Except PyErr Bool :=
  match b.buf with
  | none => .error .attributeError
  | some a => .ok (Heap.get h a).isEmpty

/-- C2: `to_mut` and `freeze` hand the identical backing array (the same heap
address `a`) to the returned buffer; no byte is copied or moved — every heap
cell reads the same before and after (the only allocation is the orphaned
empty array of the `cls()` call inside `from_static_unchecked`) — the source
object's `_buf` handle is cleared to the deleted state, and afterwards every
read on the moved-from source (`len`, indexed access, `to_bytes`,
`is_empty`), in any later heap, raises `AttributeError` instead of returning
stale or zeroed data. -/
theorem to_mut_freeze_spec (h : Heap Nat) (b : BytesObj) (a : Nat)
    (hb : b.buf = some a) :
    BytesObj.to_mut h b = .ok (h ++ [[]], ⟨none⟩, ⟨some a⟩)
    ∧ BytesObj.freeze h b = .ok (h ++ [[]], ⟨none⟩, ⟨some a⟩)
    ∧ (∀ ad, Heap.get (h ++ [[]]) ad = Heap.get h ad)
    ∧ (∀ h2 : Heap Nat, BytesObj.lenB h2 ⟨none⟩ = .error .attributeError)
    ∧ (∀ (h2 : Heap Nat) (i : Int),
        BytesObj.getItem h2 ⟨none⟩ i = .error .attributeError)
    ∧ (∀ h2 : Heap Nat, BytesObj.to_bytes h2 ⟨none⟩ = .error .attributeError)
    ∧ (∀ h2 : Heap Nat, BytesObj.is_empty h2 ⟨none⟩ = .error .attributeError) := by
  refine ⟨?_, ?_, Heap.get_append_nil h, fun _ => rfl, fun _ _ => rfl,
    fun _ => rfl, fun _ => rfl⟩
  · simp [BytesObj.to_mut, BytesObj.leak, hb, BytesObj.from_static_unchecked,
      Heap.alloc]
  · simp [BytesObj.freeze, BytesObj.leak, hb, BytesObj.from_static_unchecked,
      Heap.alloc]

/-- Witness for C2 at the buffer `⟨some 0⟩` over the heap `[[1, 2, 3]]`. -/
theorem to_mut_freeze_spec_witness :
    BytesObj.to_mut [[1, 2, 3]] ⟨some 0⟩ = .ok ([[1, 2, 3], []], ⟨none⟩, ⟨some 0⟩)
    ∧ BytesObj.lenB [[1, 2, 3], []] ⟨none⟩ = .error .attributeError := by
  have h := to_mut_freeze_spec [[1, 2, 3]] ⟨some 0⟩ 0 rfl
  exact ⟨h.1, h.2.2.2.1 [[1, 2, 3], []]⟩

/-- An operand of `Bytes.__eq__`: a Python `bytes` literal, any other
`Sequence[int]` (e.g. a `list`), or another `Bytes`/`BytesMut` object (whose
reflected comparison re-enters `Bytes.__eq__`). -/
inductive PyOperand where
  | bytesLit (l : List Nat)
  | seqObj (l : List Nat)
  | bufObj (l : List Nat)
  deriving DecidableEq, Repr

/-- `Bytes.__eq__` from `buf.py` (inherited unchanged by `BytesMut`): an empty
(falsy) backing array short-circuits to `False` before the operand is even
inspected; otherwise `bytes` operands compare via `tobytes()`, sequence
operands via `tolist()`, and a `Bytes` operand re-enters `__eq__` through the
reflected comparison (so an empty right-hand buffer also yields `False`). -/
def bytesEq (buf : List Nat) (o : PyOperand) : Bool :=
  if buf = [] then false
  else
    match o with
    | .bytesLit l => decide (buf = l)
    | .seqObj l => decide (buf = l)
    | .bufObj l => if l = [] then false else decide (l = buf)

/-- C10: a `Bytes`/`BytesMut` with an empty backing array compares unequal to
every operand — the empty bytes literal, the empty list, another empty buffer,
and itself (`bufObj []` also covers `b == b`, since `__eq__` never checks
identity) — so buffer equality is not reflexive on empty buffers. -/
theorem bytes_empty_eq_spec (o : PyOperand) :
    bytesEq [] o = false
    ∧ bytesEq [] (.bufObj []) = false
    ∧ bytesEq [] (.bytesLit []) = false
    ∧ bytesEq [] (.seqObj []) = false := by
  refine ⟨?_, rfl, rfl, rfl⟩
  simp [bytesEq]

end Sain
